import Mathlib

/-!
Verification of the kennyfs memory-leak scanner (`detect_memleaks.py`).

The scanner reads a debug trace line by line, reconstructs a call stack
from `[kfs_trace] <fn>: enter` / `[kfs_trace] <fn>: return` lines,
records allocations and frees matched by the regular expressions
`RE_MALLOC = kfs_[cm]alloc.*\b(\d+)\b.*0x(\w+)` and
`RE_FREE = kfs_free.*0x(\w+)` inside `[kfs_debug] kfs_memory.c:` lines,
and reports every allocation still outstanding at end of input.

The embedding below works on `List Char` (one list per input line) and
models the Python semantics explicitly: uncaught exceptions
(`IndexError` from `stack.pop()` on an empty list, `AssertionError`
from failed `assert`, `KeyError` from `dict.pop`, `ValueError` from
`int(s, 16)`) are `Except` errors that abort the scan, and `sys.exit(1)`
on a non-empty leak table is a distinct `ScanResult` constructor.
-/

/-- Python `\w` with the default (ASCII) semantics of Python 2 `re`:
letters, digits and underscore. -/
def isWordChar (c : Char) : Bool :=
  c.isAlpha || c.isDigit || c == '_'

/-- The whitespace characters stripped by Python 2 `str.strip()`:
space, tab, newline, carriage return, vertical tab, form feed. -/
def isPySpace (c : Char) : Bool :=
  c == ' ' || c == '\t' || c == '\n' || c == '\r' ||
  c == Char.ofNat 11 || c == Char.ofNat 12

/-- `line.strip()`: drop leading and trailing whitespace. -/
def pyStrip (cs : List Char) : List Char :=
  ((cs.dropWhile isPySpace).reverse.dropWhile isPySpace).reverse

/-- `RE_TIMESTAMP = \d{10}\.\d{6} `, anchored at the start of the line
(`re.match`): exactly ten digits, a dot, exactly six digits, a space. -/
def tsMatch (cs : List Char) : Bool :=
  (cs.take 10).length == 10 && (cs.take 10).all Char.isDigit &&
  (match cs.drop 10 with
   | '.' :: r2 =>
     (r2.take 6).length == 6 && (r2.take 6).all Char.isDigit &&
     (match r2.drop 6 with
      | ' ' :: _ => true
      | _ => false)
   | _ => false)

/-- The per-line normalisation done before classification:
`line = line.strip()`, then `if RE_TIMESTAMP.match(line): line = line[18:]`
(the timestamp pattern has fixed width 18). -/
def normLine (raw : List Char) : List Char :=
  let line := pyStrip raw
  if tsMatch line then line.drop 18 else line

/-- `int(ds)` for a non-empty string of decimal digits (regex group `\d+`). -/
def natOfDigits (ds : List Char) : Nat :=
  ds.foldl (fun a c => 10 * a + (c.toNat - 48)) 0

/-- Value of one hexadecimal digit, upper or lower case, as accepted by
Python `int(_, 16)`; `none` on any other character. -/
def hexDigitVal (c : Char) : Option Nat :=
  if c.isDigit then some (c.toNat - 48)
  else if 'a' ≤ c && c ≤ 'f' then some (c.toNat - 87)
  else if 'A' ≤ c && c ≤ 'F' then some (c.toNat - 55)
  else none

/-- `int(ws, 16)` on a regex group `\w+`: succeeds iff the (non-empty)
capture consists of hexadecimal digits only; a `ValueError` otherwise is
modelled as `none`. -/
def hexVal (ws : List Char) : Option Nat :=
  ws.foldl
    (fun acc c =>
      match acc, hexDigitVal c with
      | some a, some v => some (16 * a + v)
      | _, _ => none)
    (if ws.isEmpty then none else some 0)

/-- Tail `0x(\w+)` of both regexes preceded by a greedy `.*`: the match
uses the last occurrence of literal `0x` that is followed by at least one
word character, and captures the maximal word-character run after it.
The right-recursive structure prefers the later occurrence, mirroring
greedy backtracking. -/
def findAddr : List Char → Option (List Char)
  | [] => none
  | c :: rest =>
    match findAddr rest with
    | some r => some r
    | none =>
      if c == '0' then
        match rest with
        | 'x' :: more =>
          match more with
          | m :: _ => if isWordChar m then some (more.takeWhile isWordChar) else none
          | [] => none
        | _ => none
      else none

/-- Tail `\b(\d+)\b.*0x(\w+)` of `RE_MALLOC`, entered with `prev` the
character immediately before the current position (used for the word
boundary; initially the final `c` of `kfs_?alloc`).  `\b(\d+)\b` matches
exactly the maximal digit runs delimited by non-word characters (or the
ends of the string): a shorter run would put the trailing `\b` between
two digits.  The greedy leading `.*` means the latest such run that is
still followed by an address wins, hence the recursion tries later
positions first. -/
def mallocTail : Char → List Char → Option (List Char × List Char)
  | _, [] => none
  | prev, c :: rest =>
    match mallocTail c rest with
    | some r => some r
    | none =>
      if !isWordChar prev && c.isDigit then
        let ds := c :: rest.takeWhile Char.isDigit
        let rest2 := rest.dropWhile Char.isDigit
        let rightBoundary := match rest2 with
          | [] => true
          | c2 :: _ => !isWordChar c2
        if rightBoundary then
          match findAddr rest2 with
          | some ws => some (ds, ws)
          | none => none
        else none
      else none

/-- `RE_MALLOC.search(line)` where
`RE_MALLOC = kfs_[cm]alloc.*\b(\d+)\b.*0x(\w+)`: try each start
position from the left (`re.search` is leftmost-match); at a position
starting with `kfs_malloc` or `kfs_calloc` attempt the tail on the
remaining ten-characters-later suffix, falling through to later start
positions on failure.  Returns the two captures (size digit string,
address word string). -/
def searchMalloc : List Char → Option (List Char × List Char)
  | [] => none
  | c :: rest =>
    if ("kfs_malloc").toList.isPrefixOf (c :: rest) ||
       ("kfs_calloc").toList.isPrefixOf (c :: rest) then
      match mallocTail 'c' ((c :: rest).drop 10) with
      | some r => some r
      | none => searchMalloc rest
    else searchMalloc rest

/-- `RE_FREE.search(line)` where `RE_FREE = kfs_free.*0x(\w+)`. -/
def searchFree : List Char → Option (List Char)
  | [] => none
  | c :: rest =>
    if ("kfs_free").toList.isPrefixOf (c :: rest) then
      match findAddr ((c :: rest).drop 8) with
      | some r => some r
      | none => searchFree rest
    else searchFree rest

/-- One outstanding allocation, the Python tuple
`(linenum, func, nbytes)` stored in the `mallocs` dict. -/
abbrev AllocRecord : Type := Nat × Option (List Char) × Nat

/-- The Python exceptions that can escape `scan` and abort it. -/
inductive PyError
  | indexError
  | assertionError
  | keyError
  | valueError
  deriving DecidableEq, Repr

/-- The mutable state of one `scan` invocation. -/
structure ScanState where
  stack : List (List Char)
  mallocs : List (Nat × AllocRecord)
  totalmallocs : Nat
  totalbytes : Nat
  concurrentbytes : Int
  maxconcurrentbytes : Int
  use_trace : Bool
  deriving DecidableEq, Repr

/-- `memaddr in mallocs` (key membership in the dict). -/
def hasKey (k : Nat) : List (Nat × AllocRecord) → Bool
  | [] => false
  | (k', _) :: rest => k' == k || hasKey k rest

/-- `mallocs.pop(memaddr)`: remove the entry for the key and return its
value together with the remaining entries; `none` models `KeyError`. -/
def dictPop (k : Nat) : List (Nat × AllocRecord) →
    Option (AllocRecord × List (Nat × AllocRecord))
  | [] => none
  | (k', v) :: rest =>
    if k' = k then some (v, rest)
    else
      match dictPop k rest with
      | some (v', rest') => some (v', (k', v) :: rest')
      | none => none

/-- What one normalised line means to the scanner, following the branch
structure of the loop body: the trace branch (only taken while
`use_trace`) recognises the `enter` suffix, then asserts the `return`
suffix; the memory-debug branch tries `RE_MALLOC` first, then `RE_FREE`;
everything else falls through without an event. -/
inductive LineEvent
  | enterEv (fname : List Char)
  | returnEv
  | badTraceEv
  | mallocEv (ds ws : List Char)
  | freeEv (ws : List Char)
  | skipEv
  deriving DecidableEq, Repr

/-- Marker of trace-lifecycle lines (`line.startswith('[kfs_trace]')`). -/
def traceMarker : List Char := ("[kfs_trace]").toList

/-- Marker of memory-subsystem debug lines
(`line.startswith('[kfs_debug] kfs_memory.c:')`). -/
def debugMarker : List Char := ("[kfs_debug] kfs_memory.c:").toList

/-- Classify one normalised line exactly as the loop body branches:
`if use_trace and line.startswith('[kfs_trace]')` strips the
twelve-character `'[kfs_trace] '`, tests `endswith('enter')` (pushing
`stripped[:-len(': enter')]`, i.e. dropping seven characters), else
asserts `endswith('return')`; `elif` the memory-debug marker, in which
`RE_MALLOC` is searched before `RE_FREE`; else no event. -/
def classify (useTrace : Bool) (nl : List Char) : LineEvent :=
  if useTrace && traceMarker.isPrefixOf nl then
    let stripped := nl.drop 12
    if ("enter").toList.isSuffixOf stripped then
      .enterEv (stripped.take (stripped.length - 7))
    else if ("return").toList.isSuffixOf stripped then .returnEv
    else .badTraceEv
  else if debugMarker.isPrefixOf nl then
    match searchMalloc nl with
    | some (ds, ws) => .mallocEv ds ws
    | none =>
      match searchFree nl with
      | some ws => .freeEv ws
      | none => .skipEv
  else .skipEv

/-- Apply one classified event to the scan state, with the Python
exception sites: `stack.pop()` on an empty stack is `IndexError`; the
failed trace-suffix assert and the `assert(memaddr not in mallocs)` are
`AssertionError`; `int(group, 16)` on non-hex word characters is
`ValueError`; `mallocs.pop` of an absent key is `KeyError`.  On an
allocation the counters are bumped, the owning function is the top of
the stack when `use_trace` (an empty stack turns `use_trace` off and
records `None`), and the record is inserted.  On a free the record is
removed and its byte count subtracted from `concurrentbytes`. -/
def applyEvent (s : ScanState) (linenum : Nat) : LineEvent → Except PyError ScanState
  | .enterEv f => .ok { s with stack := s.stack ++ [f] }
  | .returnEv =>
    match s.stack with
    | [] => .error .indexError
    | _ :: _ => .ok { s with stack := s.stack.dropLast }
  | .badTraceEv => .error .assertionError
  | .mallocEv ds ws =>
    let nbytes := natOfDigits ds
    match hexVal ws with
    | none => .error .valueError
    | some memaddr =>
      let conc := s.concurrentbytes + (nbytes : Int)
      let fu : Option (List Char) × Bool :=
        if s.use_trace then
          match s.stack.getLast? with
          | some f => (some f, true)
          | none => (none, false)
        else (none, false)
      if hasKey memaddr s.mallocs then .error .assertionError
      else
        .ok { s with
          totalmallocs := s.totalmallocs + 1
          totalbytes := s.totalbytes + nbytes
          concurrentbytes := conc
          maxconcurrentbytes := max s.maxconcurrentbytes conc
          use_trace := fu.2
          mallocs := s.mallocs ++ [(memaddr, (linenum, fu.1, nbytes))] }
  | .freeEv ws =>
    match hexVal ws with
    | none => .error .valueError
    | some memaddr =>
      match dictPop memaddr s.mallocs with
      | none => .error .keyError
      | some (rec0, rest) =>
        .ok { s with
          mallocs := rest
          concurrentbytes := s.concurrentbytes - (rec0.2.2 : Int) }
  | .skipEv => .ok s

/-- Process one raw input line: normalise, classify, apply. -/
def processLine (s : ScanState) (linenum : Nat) (raw : List Char) :
    Except PyError ScanState :=
  applyEvent s linenum (classify s.use_trace (normLine raw))

/-- Run the scan loop over the remaining lines, `n` being the one-based
number of the next line (`enumerate` starts at zero and the code adds
one). -/
def runFrom (s : ScanState) (n : Nat) : List (List Char) → Except PyError ScanState
  | [] => .ok s
  | l :: rest =>
    match processLine s n l with
    | .error e => .error e
    | .ok s' => runFrom s' (n + 1) rest

/-- The state at the top of `scan`: empty stack, empty dict, zeroed
counters, trace attribution on. -/
def initState : ScanState :=
  { stack := []
    mallocs := []
    totalmallocs := 0
    totalbytes := 0
    concurrentbytes := 0
    maxconcurrentbytes := 0
    use_trace := true }

/-- Strict lexicographic comparison of Python 2 strings (bytewise). -/
def strLt : List Char → List Char → Bool
  | [], [] => false
  | [], _ :: _ => true
  | _ :: _, [] => false
  | a :: as, b :: bs => decide (a < b) || (a == b && strLt as bs)

/-- Python 2 `<` on the second tuple component: `None` compares below
every string. -/
def funcLt : Option (List Char) → Option (List Char) → Bool
  | none, none => false
  | none, some _ => true
  | some _, none => false
  | some a, some b => strLt a b

/-- Python 2 `<=` on the stored `(linenum, func, nbytes)` tuples:
lexicographic by components, the order `sorted(mallocs.itervalues())`
sorts by. -/
def pyLe (x y : AllocRecord) : Bool :=
  decide (x.1 < y.1) ||
    (decide (x.1 = y.1) &&
      (funcLt x.2.1 y.2.1 ||
        (decide (x.2.1 = y.2.1) && decide (x.2.2 ≤ y.2.2))))

/-- The data the scan reports: the sorted leak table and the verbose
statistics counters. -/
structure Report where
  leaks : List AllocRecord
  totalmallocs : Nat
  totalbytes : Nat
  maxconcurrentbytes : Int
  deriving DecidableEq, Repr

/-- Build the report from the final state:
`sorted(mallocs.itervalues())` is a stable sort of the remaining records
by the tuple order (a stable insertion sort models Python's stable
`sorted`; the scan never stores two records with equal line numbers, so
every stable sort by this order produces the same list). -/
def mkReport (s : ScanState) : Report :=
  { leaks := List.insertionSort (fun x y => pyLe x y = true)
      (s.mallocs.map Prod.snd)
    totalmallocs := s.totalmallocs
    totalbytes := s.totalbytes
    maxconcurrentbytes := s.maxconcurrentbytes }

/-- Caller-visible outcome of one `scan` call: normal return with no
leaks (process exits zero), `sys.exit(1)` with a non-empty leak table,
or an uncaught exception (process exits non-zero). -/
inductive ScanResult
  | ok (r : Report)
  | leaksFound (r : Report)
  | err (e : PyError)
  deriving DecidableEq, Repr

/-- The whole `scan` function on a list of input lines. -/
def scan (lines : List (List Char)) : ScanResult :=
  match runFrom initState 1 lines with
  | .error e => .err e
  | .ok s => if s.mallocs.isEmpty then .ok (mkReport s) else .leaksFound (mkReport s)

/-- The address a line allocates, as the scanner reads it: the line must
bear the memory-debug marker after normalisation, `RE_MALLOC` must match,
and the address capture must parse as hexadecimal. -/
def mallocAddr (l : List Char) : Option Nat :=
  if debugMarker.isPrefixOf (normLine l) then
    match searchMalloc (normLine l) with
    | some (_, ws) => hexVal ws
    | none => none
  else none

/-- The address a line frees, as the scanner reads it: the memory-debug
marker, no `RE_MALLOC` match (that branch is tried first), an `RE_FREE`
match, and a parsable address capture. -/
def freeAddr (l : List Char) : Option Nat :=
  if debugMarker.isPrefixOf (normLine l) then
    match searchMalloc (normLine l) with
    | some _ => none
    | none =>
      match searchFree (normLine l) with
      | some ws => hexVal ws
      | none => none
  else none

/-- Concrete trace lines used by the scenario theorems and witnesses. -/
def enterFooLine : List Char := ("[kfs_trace] foo: enter").toList

def returnFooLine : List Char := ("[kfs_trace] foo: return").toList

def badTraceLine : List Char := ("[kfs_trace] hello world").toList

def mallocSizeLine : List Char :=
  ("[kfs_debug] kfs_memory.c: kfs_malloc 16 bytes 0xAAAA").toList

def mallocNoSizeLine : List Char :=
  ("[kfs_debug] kfs_memory.c: kfs_malloc 0xABCD").toList

def freeFooLine : List Char :=
  ("[kfs_debug] kfs_memory.c: kfs_free 0xAAAA").toList

def mallocC1 : List Char :=
  ("[kfs_debug] kfs_memory.c: kfs_malloc 8 bytes 0xCCCC").toList

def freeUnknownLine : List Char :=
  ("[kfs_debug] kfs_memory.c: kfs_free 0xBBBB").toList

def mallocLeak1 : List Char :=
  ("[kfs_debug] kfs_memory.c: kfs_malloc 8 bytes 0xB1").toList

def mallocLeak2 : List Char :=
  ("[kfs_debug] kfs_memory.c: kfs_malloc 4 bytes 0xB2").toList

lemma isPrefixOf_ex {l₁ l₂ : List Char} (h : l₁.isPrefixOf l₂ = true) :
    ∃ t, l₂ = l₁ ++ t := by
  induction l₁ generalizing l₂ with
  | nil => exact ⟨l₂, rfl⟩
  | cons a as ih =>
    cases l₂ with
    | nil => simp [List.isPrefixOf] at h
    | cons b bs =>
      simp only [List.isPrefixOf, Bool.and_eq_true, beq_iff_eq] at h
      obtain ⟨rfl, h2⟩ := h
      obtain ⟨t, ht⟩ := ih h2
      exact ⟨t, by rw [ht]; rfl⟩

lemma traceMarker_of_debug (t : List Char) :
    traceMarker.isPrefixOf (debugMarker ++ t) = false := rfl

lemma debugMarker_of_trace (t : List Char) :
    debugMarker.isPrefixOf (traceMarker ++ t) = false := rfl

lemma classify_of_debug (ut : Bool) {nl : List Char}
    (h : debugMarker.isPrefixOf nl = true) :
    classify ut nl =
      (match searchMalloc nl with
       | some (ds, ws) => LineEvent.mallocEv ds ws
       | none =>
         match searchFree nl with
         | some ws => LineEvent.freeEv ws
         | none => LineEvent.skipEv) := by
  obtain ⟨t, rfl⟩ := isPrefixOf_ex h
  unfold classify
  rw [traceMarker_of_debug]
  simp [h]

lemma classify_of_noise (ut : Bool) {nl : List Char}
    (h1 : traceMarker.isPrefixOf nl = false)
    (h2 : debugMarker.isPrefixOf nl = false) :
    classify ut nl = LineEvent.skipEv := by
  unfold classify
  simp [h1, h2]

lemma classify_of_trace {nl : List Char}
    (h : traceMarker.isPrefixOf nl = true) :
    classify true nl =
      (if ("enter").toList.isSuffixOf (nl.drop 12) then
        LineEvent.enterEv ((nl.drop 12).take ((nl.drop 12).length - 7))
      else if ("return").toList.isSuffixOf (nl.drop 12) then LineEvent.returnEv
      else LineEvent.badTraceEv) := by
  unfold classify
  simp [h]

lemma classify_of_ut_false {nl : List Char}
    (h : debugMarker.isPrefixOf nl = false) :
    classify false nl = LineEvent.skipEv := by
  unfold classify
  simp [h]

lemma runFrom_append (xs ys : List (List Char)) :
    ∀ (s : ScanState) (n : Nat),
    runFrom s n (xs ++ ys) =
      (match runFrom s n xs with
       | .error e => .error e
       | .ok s' => runFrom s' (n + xs.length) ys) := by
  induction xs with
  | nil => intro s n; simp [runFrom]
  | cons l rest ih =>
    intro s n
    show runFrom s n (l :: (rest ++ ys)) = _
    cases h : processLine s n l with
    | error e => simp [runFrom, h]
    | ok s₁ =>
      have harith : n + 1 + rest.length = n + (rest.length + 1) := by omega
      simp [runFrom, h, ih s₁ (n + 1), harith]

lemma hasKey_append (k : Nat) (d₁ d₂ : List (Nat × AllocRecord)) :
    hasKey k (d₁ ++ d₂) = (hasKey k d₁ || hasKey k d₂) := by
  induction d₁ with
  | nil => simp [hasKey]
  | cons p rest ih => cases p; simp [hasKey, ih, Bool.or_assoc]

lemma hasKey_iff (k : Nat) (d : List (Nat × AllocRecord)) :
    hasKey k d = true ↔ ∃ v, (k, v) ∈ d := by
  induction d with
  | nil => simp [hasKey]
  | cons p rest ih =>
    cases p with
    | mk k' v' =>
      simp only [hasKey, Bool.or_eq_true, beq_iff_eq, ih, List.mem_cons]
      constructor
      · rintro (rfl | ⟨v, hv⟩)
        · exact ⟨v', Or.inl rfl⟩
        · exact ⟨v, Or.inr hv⟩
      · rintro ⟨v, h | hv⟩
        · exact Or.inl (by cases h; rfl)
        · exact Or.inr ⟨v, hv⟩

lemma dictPop_some {k : Nat} {d : List (Nat × AllocRecord)}
    {v : AllocRecord} {rest : List (Nat × AllocRecord)}
    (h : dictPop k d = some (v, rest)) :
    ∃ pre post, d = pre ++ (k, v) :: post ∧ rest = pre ++ post ∧
      ∀ p ∈ pre, p.1 ≠ k := by
  induction d generalizing rest with
  | nil => simp [dictPop] at h
  | cons p tail ih =>
    cases p with
    | mk k' v' =>
      by_cases hk : k' = k
      · subst hk
        simp [dictPop] at h
        obtain ⟨rfl, rfl⟩ := h
        exact ⟨[], tail, rfl, rfl, by simp⟩
      · rw [dictPop, if_neg hk] at h
        cases h2 : dictPop k tail with
        | none => rw [h2] at h; simp at h
        | some pr =>
          cases pr with
          | mk v₀ rest₀ =>
            rw [h2] at h
            simp at h
            obtain ⟨rfl, rfl⟩ := h
            obtain ⟨pre, post, hd, hr, hpre⟩ := ih h2
            refine ⟨(k', v') :: pre, post, by simp [hd], by simp [hr], ?_⟩
            intro p hp
            rcases List.mem_cons.mp hp with rfl | hp'
            · exact hk
            · exact hpre p hp'

lemma dictPop_none_of_hasKey_false {k : Nat} {d : List (Nat × AllocRecord)}
    (h : hasKey k d = false) : dictPop k d = none := by
  induction d with
  | nil => rfl
  | cons p rest ih =>
    cases p with
    | mk k' v' =>
      simp only [hasKey, Bool.or_eq_false_iff, beq_eq_false_iff_ne] at h
      rw [dictPop, if_neg h.1, ih h.2]

lemma hasKey_false_not_mem {k : Nat} {d : List (Nat × AllocRecord)}
    (h : hasKey k d = false) : ∀ v, (k, v) ∉ d := by
  intro v hv
  have : hasKey k d = true := (hasKey_iff k d).mpr ⟨v, hv⟩
  rw [h] at this
  exact absurd this (by simp)

lemma step_use_trace {s : ScanState} {n : Nat} {l : List Char} {s₁ : ScanState}
    (h : processLine s n l = Except.ok s₁) (hu : s.use_trace = false) :
    s₁.use_trace = false := by
  unfold processLine at h
  cases hc : classify s.use_trace (normLine l) <;> rw [hc] at h <;>
    simp only [applyEvent] at h
  case enterEv f =>
    simp only [Except.ok.injEq] at h
    rw [← h]
    exact hu
  case returnEv =>
    cases hst : s.stack with
    | nil => rw [hst] at h; simp at h
    | cons a t =>
      rw [hst] at h
      simp only [Except.ok.injEq] at h
      rw [← h]
      exact hu
  case badTraceEv => simp at h
  case mallocEv ds ws =>
    cases hv : hexVal ws with
    | none => simp only [hv] at h; simp at h
    | some a =>
      simp only [hv] at h
      cases hk : hasKey a s.mallocs with
      | true => simp [hk] at h
      | false =>
        simp only [hk, hu, Bool.false_eq_true, if_false, reduceIte,
          Except.ok.injEq] at h
        rw [← h]
  case freeEv ws =>
    cases hv : hexVal ws with
    | none => simp only [hv] at h; simp at h
    | some a =>
      simp only [hv] at h
      cases hp : dictPop a s.mallocs with
      | none => simp only [hp] at h; simp at h
      | some pr =>
        cases pr with
        | mk v rest =>
          simp only [hp, Except.ok.injEq] at h
          rw [← h]
          exact hu
  case skipEv =>
    simp only [Except.ok.injEq] at h
    rw [← h]
    exact hu

lemma processLine_ok_cases {s : ScanState} {n : Nat} {l : List Char} {s₁ : ScanState}
    (h : processLine s n l = Except.ok s₁) :
    (s₁.mallocs = s.mallocs ∧ mallocAddr l = none ∧ freeAddr l = none)
    ∨ (∃ a v, mallocAddr l = some a ∧ freeAddr l = none ∧
        hasKey a s.mallocs = false ∧
        s₁.mallocs = s.mallocs ++ [(a, v)] ∧ v.1 = n)
    ∨ (∃ a v rest, freeAddr l = some a ∧ dictPop a s.mallocs = some (v, rest) ∧
        s₁.mallocs = rest) := by
  cases hdp : debugMarker.isPrefixOf (normLine l) with
  | true =>
    rw [processLine, classify_of_debug s.use_trace hdp] at h
    cases hm : searchMalloc (normLine l) with
    | some p =>
      obtain ⟨ds, ws⟩ := p
      simp only [hm, applyEvent] at h
      cases hv : hexVal ws with
      | none => simp only [hv] at h; simp at h
      | some a =>
        simp only [hv] at h
        cases hk : hasKey a s.mallocs with
        | true => simp [hk] at h
        | false =>
          simp only [hk, Bool.false_eq_true, if_false, reduceIte,
            Except.ok.injEq] at h
          subst h
          exact Or.inr (Or.inl ⟨a, _, by simp [mallocAddr, hdp, hm, hv],
            by simp [freeAddr, hdp, hm], hk, rfl, rfl⟩)
    | none =>
      cases hf : searchFree (normLine l) with
      | some ws =>
        simp only [hm, hf, applyEvent] at h
        cases hv : hexVal ws with
        | none => simp only [hv] at h; simp at h
        | some a =>
          simp only [hv] at h
          cases hp : dictPop a s.mallocs with
          | none => simp only [hp] at h; simp at h
          | some pr =>
            obtain ⟨v, rest⟩ := pr
            simp only [hp, Except.ok.injEq] at h
            subst h
            exact Or.inr (Or.inr ⟨a, v, rest,
              by simp [freeAddr, hdp, hm, hf, hv], hp, rfl⟩)
      | none =>
        simp only [hm, hf, applyEvent, Except.ok.injEq] at h
        subst h
        exact Or.inl ⟨rfl, by simp [mallocAddr, hdp, hm],
          by simp [freeAddr, hdp, hm, hf]⟩
  | false =>
    have hma : mallocAddr l = none := by simp [mallocAddr, hdp]
    have hfa : freeAddr l = none := by simp [freeAddr, hdp]
    refine Or.inl ⟨?_, hma, hfa⟩
    cases htr : traceMarker.isPrefixOf (normLine l) with
    | false =>
      rw [processLine, classify_of_noise s.use_trace htr hdp] at h
      simp only [applyEvent, Except.ok.injEq] at h
      subst h; rfl
    | true =>
      cases hu : s.use_trace with
      | false =>
        rw [processLine, hu, classify_of_ut_false hdp] at h
        simp only [applyEvent, Except.ok.injEq] at h
        subst h; rfl
      | true =>
        rw [processLine, hu, classify_of_trace htr] at h
        cases he : ("enter").toList.isSuffixOf ((normLine l).drop 12) with
        | true =>
          simp only [he, if_true, reduceIte, applyEvent, Except.ok.injEq] at h
          subst h; rfl
        | false =>
          cases hr : ("return").toList.isSuffixOf ((normLine l).drop 12) with
          | true =>
            simp only [he, hr, Bool.false_eq_true, if_false, if_true,
              reduceIte, applyEvent] at h
            cases hst : s.stack with
            | nil => rw [hst] at h; simp at h
            | cons b t =>
              rw [hst] at h
              simp only [Except.ok.injEq] at h
              subst h; rfl
          | false =>
            simp only [he, hr, Bool.false_eq_true, if_false, reduceIte,
              applyEvent] at h
            simp at h

lemma hasKey_of_mem {k : Nat} {v : AllocRecord} {d : List (Nat × AllocRecord)}
    (h : (k, v) ∈ d) : hasKey k d = true :=
  (hasKey_iff k d).mpr ⟨v, h⟩

lemma not_mem_keys_of_hasKey_false {k : Nat} {d : List (Nat × AllocRecord)}
    (h : hasKey k d = false) : k ∉ d.map Prod.fst := by
  intro hmem
  obtain ⟨p, hp, hfst⟩ := List.mem_map.mp hmem
  cases p with
  | mk k' v =>
    simp at hfst
    subst hfst
    rw [hasKey_of_mem hp] at h
    exact absurd h (by simp)

lemma run_mallocs_empty :
    ∀ (ls : List (List Char)) (s : ScanState) (n : Nat) (s' : ScanState),
    runFrom s n ls = Except.ok s' →
    (s.mallocs.map Prod.fst).Nodup →
    (∀ a, hasKey a s.mallocs = true → ∃ l ∈ ls, freeAddr l = some a) →
    (∀ pre l post a, ls = pre ++ l :: post → mallocAddr l = some a →
      ∃ l2 ∈ post, freeAddr l2 = some a) →
    s'.mallocs = [] := by
  intro ls
  induction ls with
  | nil =>
    intro s n s' hrun hnd hfree _
    simp only [runFrom, Except.ok.injEq] at hrun
    subst hrun
    cases hm : s.mallocs with
    | nil => rfl
    | cons p d =>
      exfalso
      have hk : hasKey p.1 s.mallocs = true := by
        rw [hm]; cases p; simp [hasKey]
      obtain ⟨l, hl, _⟩ := hfree p.1 hk
      simp at hl
  | cons l rest ih =>
    intro s n s' hrun hnd hfree hmatch
    rw [runFrom] at hrun
    cases hstep : processLine s n l with
    | error e => rw [hstep] at hrun; simp at hrun
    | ok s₁ =>
      rw [hstep] at hrun
      rcases processLine_ok_cases hstep with
        ⟨hm1, hma, hfa⟩ | ⟨a, v, hma, hfa, hk, hm1, _⟩ |
        ⟨a, v, rest0, hfa, hp, hm1⟩
      · -- the line changed nothing
        apply ih s₁ (n + 1) s' hrun (by rw [hm1]; exact hnd)
        · intro a ha
          rw [hm1] at ha
          obtain ⟨l0, hl0, hfl0⟩ := hfree a ha
          rcases List.mem_cons.mp hl0 with rfl | hl0'
          · rw [hfa] at hfl0; exact absurd hfl0 (by simp)
          · exact ⟨l0, hl0', hfl0⟩
        · intro pre l2 post a hdec hma2
          exact hmatch (l :: pre) l2 post a (by rw [hdec]; rfl) hma2
      · -- the line allocated address a
        apply ih s₁ (n + 1) s' hrun
        · rw [hm1, List.map_append]
          refine hnd.append (by simp) ?_
          intro x hx hx2
          simp at hx2
          subst hx2
          exact not_mem_keys_of_hasKey_false hk hx
        · intro a' ha'
          rw [hm1, hasKey_append] at ha'
          rcases Bool.or_eq_true_iff.mp ha' with h1 | h2
          · obtain ⟨l0, hl0, hfl0⟩ := hfree a' h1
            rcases List.mem_cons.mp hl0 with rfl | hl0'
            · rw [hfa] at hfl0; exact absurd hfl0 (by simp)
            · exact ⟨l0, hl0', hfl0⟩
          · have haa : a' = a := by
              simp only [hasKey, Bool.or_eq_true, beq_iff_eq] at h2
              rcases h2 with h2 | h2
              · exact h2.symm
              · exact absurd h2 (by simp)
            subst haa
            exact hmatch [] l rest a' rfl hma
        · intro pre l2 post a' hdec hma2
          exact hmatch (l :: pre) l2 post a' (by rw [hdec]; rfl) hma2
      · -- the line freed address a
        obtain ⟨pre0, post0, hdec0, hrest0, hpre0⟩ := dictPop_some hp
        have hnd0 : ((pre0 ++ post0).map Prod.fst).Nodup := by
          have hsub : (pre0 ++ post0).Sublist s.mallocs := by
            rw [hdec0]
            exact (List.sublist_cons_self (a, v) post0).append_left pre0
          exact (hsub.map Prod.fst).nodup hnd
        have hanotin : a ∉ (pre0 ++ post0).map Prod.fst := by
          rw [hdec0, List.map_append] at hnd
          rw [List.nodup_append] at hnd
          obtain ⟨_, hnd2, hdisj⟩ := hnd
          rw [List.map_cons, List.nodup_cons] at hnd2
          intro hmem
          rw [List.map_append] at hmem
          rcases List.mem_append.mp hmem with hmem | hmem
          · exact hdisj hmem (by simp)
          · exact hnd2.1 hmem
        apply ih s₁ (n + 1) s' hrun (by rw [hm1, hrest0]; exact hnd0)
        · intro a' ha'
          rw [hm1, hrest0] at ha'
          obtain ⟨v', hv'⟩ := (hasKey_iff a' (pre0 ++ post0)).mp ha'
          have hne : a' ≠ a := by
            rintro rfl
            exact hanotin (List.mem_map.mpr ⟨(a', v'), hv', rfl⟩)
          have hmem : (a', v') ∈ s.mallocs := by
            rw [hdec0]
            rcases List.mem_append.mp hv' with hm | hm
            · exact List.mem_append.mpr (Or.inl hm)
            · exact List.mem_append.mpr (Or.inr (List.mem_cons.mpr (Or.inr hm)))
          obtain ⟨l0, hl0, hfl0⟩ := hfree a' (hasKey_of_mem hmem)
          rcases List.mem_cons.mp hl0 with rfl | hl0'
          · rw [hfa] at hfl0
            simp at hfl0
            exact absurd hfl0 (Ne.symm hne)
          · exact ⟨l0, hl0', hfl0⟩
        · intro pre l2 post a' hdec hma2
          exact hmatch (l :: pre) l2 post a' (by rw [hdec]; rfl) hma2

lemma strLt_trans : ∀ (a b c : List Char),
    strLt a b = true → strLt b c = true → strLt a c = true := by
  intro a
  induction a with
  | nil =>
    intro b c hab hbc
    cases c with
    | nil =>
      cases b with
      | nil => simp [strLt] at hab
      | cons y ys => simp [strLt] at hbc
    | cons z zs => simp [strLt]
  | cons x xs ih =>
    intro b c hab hbc
    cases b with
    | nil => simp [strLt] at hab
    | cons y ys =>
      cases c with
      | nil => simp [strLt] at hbc
      | cons z zs =>
        simp only [strLt, Bool.or_eq_true, Bool.and_eq_true, decide_eq_true_eq,
          beq_iff_eq] at hab hbc ⊢
        rcases hab with h1 | ⟨rfl, h2⟩
        · rcases hbc with h3 | ⟨rfl, h4⟩
          · exact Or.inl (lt_trans h1 h3)
          · exact Or.inl h1
        · rcases hbc with h3 | ⟨rfl, h4⟩
          · exact Or.inl h3
          · exact Or.inr ⟨rfl, ih ys zs h2 h4⟩

lemma strLt_conn : ∀ (a b : List Char),
    strLt a b = false → strLt b a = false → a = b := by
  intro a
  induction a with
  | nil =>
    intro b h1 _
    cases b with
    | nil => rfl
    | cons y ys => simp [strLt] at h1
  | cons x xs ih =>
    intro b h1 h2
    cases b with
    | nil => simp [strLt] at h2
    | cons y ys =>
      simp only [strLt, Bool.or_eq_false_iff, decide_eq_false_iff_not] at h1 h2
      have hxy : x = y := le_antisymm (not_lt.mp h2.1) (not_lt.mp h1.1)
      subst hxy
      have h1' : strLt xs ys = false := by simpa using h1.2
      have h2' : strLt ys xs = false := by simpa using h2.2
      rw [ih ys h1' h2']

lemma funcLt_trans : ∀ (a b c : Option (List Char)),
    funcLt a b = true → funcLt b c = true → funcLt a c = true := by
  intro a b c hab hbc
  cases a with
  | none =>
    cases c with
    | some lc => simp [funcLt]
    | none =>
      cases b with
      | none => simp [funcLt] at hab
      | some lb => simp [funcLt] at hbc
  | some la =>
    cases b with
    | none => simp [funcLt] at hab
    | some lb =>
      cases c with
      | none => simp [funcLt] at hbc
      | some lc =>
        simp only [funcLt] at hab hbc ⊢
        exact strLt_trans la lb lc hab hbc

lemma funcLt_conn : ∀ (a b : Option (List Char)),
    funcLt a b = false → funcLt b a = false → a = b := by
  intro a b h1 h2
  cases a with
  | none =>
    cases b with
    | none => rfl
    | some lb => simp [funcLt] at h1
  | some la =>
    cases b with
    | none => simp [funcLt] at h2
    | some lb =>
      simp only [funcLt] at h1 h2
      rw [strLt_conn la lb h1 h2]

lemma pyLe_trans : ∀ (x y z : AllocRecord),
    pyLe x y = true → pyLe y z = true → pyLe x z = true := by
  intro x y z hxy hyz
  simp only [pyLe, Bool.or_eq_true, Bool.and_eq_true, decide_eq_true_eq]
    at hxy hyz ⊢
  rcases hxy with h1 | ⟨he1, h1⟩
  · rcases hyz with h2 | ⟨he2, h2⟩
    · exact Or.inl (lt_trans h1 h2)
    · exact Or.inl (he2 ▸ h1)
  · rcases hyz with h2 | ⟨he2, h2⟩
    · exact Or.inl (he1 ▸ h2)
    · refine Or.inr ⟨he1.trans he2, ?_⟩
      rcases h1 with h1 | ⟨hf1, h1⟩
      · rcases h2 with h2 | ⟨hf2, h2⟩
        · exact Or.inl (funcLt_trans _ _ _ h1 h2)
        · exact Or.inl (hf2 ▸ h1)
      · rcases h2 with h2 | ⟨hf2, h2⟩
        · exact Or.inl (hf1 ▸ h2)
        · exact Or.inr ⟨hf1.trans hf2, le_trans h1 h2⟩

lemma pyLe_total : ∀ (x y : AllocRecord), (pyLe x y || pyLe y x) = true := by
  intro x y
  simp only [pyLe, Bool.or_eq_true, Bool.and_eq_true, decide_eq_true_eq]
  rcases Nat.lt_trichotomy x.1 y.1 with h | h | h
  · exact Or.inl (Or.inl h)
  · cases hf : funcLt x.2.1 y.2.1 with
    | true => exact Or.inl (Or.inr ⟨h, Or.inl rfl⟩)
    | false =>
      cases hg : funcLt y.2.1 x.2.1 with
      | true => exact Or.inr (Or.inr ⟨h.symm, Or.inl rfl⟩)
      | false =>
        have heq : x.2.1 = y.2.1 := funcLt_conn _ _ hf hg
        rcases Nat.le_total x.2.2 y.2.2 with hn | hn
        · exact Or.inl (Or.inr ⟨h, Or.inr ⟨heq, hn⟩⟩)
        · exact Or.inr (Or.inr ⟨h.symm, Or.inr ⟨heq.symm, hn⟩⟩)
  · exact Or.inr (Or.inl h)

lemma run_linenum_inv :
    ∀ (ls : List (List Char)) (s : ScanState) (n : Nat) (s' : ScanState),
    runFrom s n ls = Except.ok s' →
    List.Pairwise (· < ·) (s.mallocs.map (fun p => p.2.1)) →
    (∀ p ∈ s.mallocs, p.2.1 < n) →
    List.Pairwise (· < ·) (s'.mallocs.map (fun p => p.2.1)) := by
  intro ls
  induction ls with
  | nil =>
    intro s n s' hrun hpw _
    simp only [runFrom, Except.ok.injEq] at hrun
    subst hrun
    exact hpw
  | cons l rest ih =>
    intro s n s' hrun hpw hbnd
    rw [runFrom] at hrun
    cases hstep : processLine s n l with
    | error e => rw [hstep] at hrun; simp at hrun
    | ok s₁ =>
      rw [hstep] at hrun
      rcases processLine_ok_cases hstep with
        ⟨hm1, _, _⟩ | ⟨a, v, _, _, _, hm1, hv1⟩ | ⟨a, v, rest0, _, hp, hm1⟩
      · exact ih s₁ (n + 1) s' hrun (by rw [hm1]; exact hpw)
          (by rw [hm1]; exact fun p hp => lt_trans (hbnd p hp) (Nat.lt_succ_self n))
      · apply ih s₁ (n + 1) s' hrun
        · rw [hm1, List.map_append, List.pairwise_append]
          refine ⟨hpw, by simp, ?_⟩
          intro u hu w hw
          simp only [List.map_cons, List.map_nil, List.mem_singleton] at hw
          subst hw
          obtain ⟨p, hpmem, rfl⟩ := List.mem_map.mp hu
          rw [hv1]
          exact hbnd p hpmem
        · rw [hm1]
          intro p hpm
          rcases List.mem_append.mp hpm with hpm | hpm
          · exact lt_trans (hbnd p hpm) (Nat.lt_succ_self n)
          · simp only [List.mem_singleton] at hpm
            subst hpm
            simp only [hv1]
            exact Nat.lt_succ_self n
      · obtain ⟨pre0, post0, hdec0, hrest0, _⟩ := dictPop_some hp
        have hsub : (pre0 ++ post0).Sublist s.mallocs := by
          rw [hdec0]
          exact (List.sublist_cons_self (a, v) post0).append_left pre0
        apply ih s₁ (n + 1) s' hrun
        · rw [hm1, hrest0]
          exact List.Pairwise.sublist (hsub.map (fun p => p.2.1)) hpw
        · rw [hm1, hrest0]
          intro p hpm
          exact lt_trans (hbnd p (hsub.mem hpm)) (Nat.lt_succ_self n)

lemma step_conc_facts {s : ScanState} {n : Nat} {l : List Char} {s₁ : ScanState}
    (h : processLine s n l = Except.ok s₁) :
    (s.concurrentbytes ≤ s.maxconcurrentbytes →
      s₁.concurrentbytes ≤ s₁.maxconcurrentbytes)
    ∧ s.maxconcurrentbytes ≤ s₁.maxconcurrentbytes
    ∧ (s₁.maxconcurrentbytes = s.maxconcurrentbytes ∨
        s₁.maxconcurrentbytes = s₁.concurrentbytes) := by
  unfold processLine at h
  cases hc : classify s.use_trace (normLine l) <;> rw [hc] at h <;>
    simp only [applyEvent] at h
  case enterEv f =>
    simp only [Except.ok.injEq] at h
    subst h
    exact ⟨fun hx => hx, le_refl _, Or.inl rfl⟩
  case returnEv =>
    cases hst : s.stack with
    | nil => rw [hst] at h; simp at h
    | cons b t =>
      rw [hst] at h
      simp only [Except.ok.injEq] at h
      subst h
      exact ⟨fun hx => hx, le_refl _, Or.inl rfl⟩
  case badTraceEv => simp at h
  case mallocEv ds ws =>
    cases hv : hexVal ws with
    | none => simp only [hv] at h; simp at h
    | some a =>
      simp only [hv] at h
      cases hk : hasKey a s.mallocs with
      | true => simp [hk] at h
      | false =>
        simp only [hk, Bool.false_eq_true, if_false, reduceIte,
          Except.ok.injEq] at h
        subst h
        refine ⟨fun _ => le_max_right _ _, le_max_left _ _, ?_⟩
        exact max_choice s.maxconcurrentbytes
          (s.concurrentbytes + (natOfDigits ds : Int))
  case freeEv ws =>
    cases hv : hexVal ws with
    | none => simp only [hv] at h; simp at h
    | some a =>
      simp only [hv] at h
      cases hp : dictPop a s.mallocs with
      | none => simp only [hp] at h; simp at h
      | some pr =>
        obtain ⟨v, rest⟩ := pr
        simp only [hp, Except.ok.injEq] at h
        subst h
        refine ⟨fun hx => ?_, le_refl _, Or.inl rfl⟩
        exact le_trans (sub_le_self _ (Int.natCast_nonneg v.2.2)) hx
  case skipEv =>
    simp only [Except.ok.injEq] at h
    subst h
    exact ⟨fun hx => hx, le_refl _, Or.inl rfl⟩

lemma run_conc_inv :
    ∀ (ls : List (List Char)) (s : ScanState) (n : Nat) (s' : ScanState),
    runFrom s n ls = Except.ok s' →
    s.concurrentbytes ≤ s.maxconcurrentbytes →
    s'.concurrentbytes ≤ s'.maxconcurrentbytes := by
  intro ls
  induction ls with
  | nil =>
    intro s n s' hrun hle
    simp only [runFrom, Except.ok.injEq] at hrun
    subst hrun
    exact hle
  | cons l rest ih =>
    intro s n s' hrun hle
    rw [runFrom] at hrun
    cases hstep : processLine s n l with
    | error e => rw [hstep] at hrun; simp at hrun
    | ok s₁ =>
      rw [hstep] at hrun
      exact ih s₁ (n + 1) s' hrun ((step_conc_facts hstep).1 hle)

lemma run_max_mono :
    ∀ (ls : List (List Char)) (s : ScanState) (n : Nat) (s' : ScanState),
    runFrom s n ls = Except.ok s' →
    s.maxconcurrentbytes ≤ s'.maxconcurrentbytes := by
  intro ls
  induction ls with
  | nil =>
    intro s n s' hrun
    simp only [runFrom, Except.ok.injEq] at hrun
    subst hrun
    exact le_refl _
  | cons l rest ih =>
    intro s n s' hrun
    rw [runFrom] at hrun
    cases hstep : processLine s n l with
    | error e => rw [hstep] at hrun; simp at hrun
    | ok s₁ =>
      rw [hstep] at hrun
      exact le_trans (step_conc_facts hstep).2.1 (ih s₁ (n + 1) s' hrun)

lemma run_max_attained :
    ∀ (ls : List (List Char)) (s : ScanState) (n : Nat) (s' : ScanState),
    runFrom s n ls = Except.ok s' →
    s'.maxconcurrentbytes = s.maxconcurrentbytes ∨
      ∃ k t, runFrom s n (ls.take k) = Except.ok t ∧
        t.concurrentbytes = s'.maxconcurrentbytes := by
  intro ls
  induction ls with
  | nil =>
    intro s n s' hrun
    simp only [runFrom, Except.ok.injEq] at hrun
    subst hrun
    exact Or.inl rfl
  | cons l rest ih =>
    intro s n s' hrun
    rw [runFrom] at hrun
    cases hstep : processLine s n l with
    | error e => rw [hstep] at hrun; simp at hrun
    | ok s₁ =>
      rw [hstep] at hrun
      rcases ih s₁ (n + 1) s' hrun with heq | ⟨k, t, hk, hc⟩
      · rcases (step_conc_facts hstep).2.2 with h1 | h2
        · exact Or.inl (heq.trans h1)
        · refine Or.inr ⟨1, s₁, ?_, ?_⟩
          · show runFrom s n [l] = Except.ok s₁
            rw [runFrom, hstep]
            rfl
          · rw [← h2, heq]
      · refine Or.inr ⟨k + 1, t, ?_, hc⟩
        show runFrom s n (l :: rest.take k) = Except.ok t
        rw [runFrom, hstep]
        exact hk

/-- C1 counterexample: on the two-line trace whose first line is a
function-return event with the call stack still empty, the scan does NOT
continue — `stack.pop()` raises `IndexError` and the scan aborts, so the
allocation on the second line is never processed.  This falsifies the
claim that a return event on an empty stack degrades gracefully. -/
theorem C1_counterexample :
    scan [returnFooLine, mallocSizeLine] =
      ScanResult.err PyError.indexError := by decide

/-- C1 (amended): a function-return event observed with an empty call
stack raises `IndexError`, aborting the scan.  The graceful un-attributed
degradation applies to allocations instead: an allocation event observed
with an empty call stack is recorded with owning function absent and
switches `use_trace` off, and once `use_trace` is off it never turns back
on, so every subsequent allocation also records its owner as absent. -/
theorem C1_return_underflow_aborts (s : ScanState) (n : Nat) (l : List Char) :
    (s.use_trace = true → s.stack = [] →
      classify true (normLine l) = LineEvent.returnEv →
      processLine s n l = Except.error PyError.indexError)
    ∧ (∀ ds ws a, s.use_trace = true → s.stack = [] →
        classify true (normLine l) = LineEvent.mallocEv ds ws →
        hexVal ws = some a → hasKey a s.mallocs = false →
        ∃ s₁, processLine s n l = Except.ok s₁ ∧ s₁.use_trace = false ∧
          (a, (n, none, natOfDigits ds)) ∈ s₁.mallocs)
    ∧ (∀ s₁, s.use_trace = false → processLine s n l = Except.ok s₁ →
        s₁.use_trace = false) := by
  refine ⟨?_, ?_, ?_⟩
  · intro hu hst hc
    rw [processLine, hu, hc]
    simp only [applyEvent]
    rw [hst]
  · intro ds ws a hu hst hc hv hk
    rw [processLine, hu, hc]
    simp only [applyEvent, hv, hu, hst, List.getLast?_nil, hk]
    refine ⟨_, rfl, rfl, ?_⟩
    exact List.mem_append.mpr (Or.inr (List.mem_singleton.mpr rfl))
  · intro s₁ hu h
    exact step_use_trace h hu

/-- C1 witness: the amended theorem applied to the initial state and a
concrete allocation line (address `0xB1`, 8 bytes) with the stack empty:
the step succeeds, turns `use_trace` off and records no owning function. -/
theorem C1_witness :
    ∃ s₁, processLine initState 1 mallocLeak1 = Except.ok s₁ ∧
      s₁.use_trace = false ∧ (177, (1, none, 8)) ∈ s₁.mallocs :=
  (C1_return_underflow_aborts initState 1 mallocLeak1).2.1
    (("8").toList) (("B1").toList) 177 rfl rfl (by decide) (by decide)
    (by decide)

/-- C2 counterexample: a memory-debug line with the allocation keyword
and a mandatory hexadecimal address but no decimal byte size is NOT
classified as an allocation event (`RE_MALLOC` requires the `\d+` size
group), and scanning it records zero allocations — the event is silently
dropped, falsifying the claim. -/
theorem C2_counterexample :
    searchMalloc (normLine mallocNoSizeLine) = none ∧
    scan [mallocNoSizeLine] =
      ScanResult.ok
        { leaks := [], totalmallocs := 0, totalbytes := 0,
          maxconcurrentbytes := 0 } := by decide

/-- C2 (amended): allocation lines carrying both a decimal byte size and
a hexadecimal address are classified as allocation events, but the size
is mandatory: a `kfs_malloc` line whose only digits sit inside the
`0x`-address matches neither pattern and produces no event and no error
(it is silently ignored, leaving the scan state unchanged). -/
theorem C2_size_required (ut : Bool) (s : ScanState) (n : Nat) :
    classify ut (normLine mallocSizeLine) =
      LineEvent.mallocEv (("16").toList) (("AAAA").toList)
    ∧ searchMalloc (normLine mallocNoSizeLine) = none
    ∧ processLine s n mallocNoSizeLine = Except.ok s := by
  refine ⟨by cases ut <;> decide, by decide, ?_⟩
  rw [processLine,
    classify_of_debug s.use_trace
      (by decide : debugMarker.isPrefixOf (normLine mallocNoSizeLine) = true)]
  simp only [(by decide : searchMalloc (normLine mallocNoSizeLine) = none),
    (by decide : searchFree (normLine mallocNoSizeLine) = none)]
  rfl

/-- C3 counterexample: a line that begins with the trace-lifecycle marker
but ends with neither `enter` nor `return` does not leave the state
unchanged — the `assert(stripped.endswith('return'))` fails and the scan
aborts with `AssertionError`, falsifying the claim. -/
theorem C3_counterexample :
    scan [badTraceLine] = ScanResult.err PyError.assertionError := by decide

/-- C3 (amended): a line bearing neither marker, or bearing the
memory-debug marker but matching neither the allocation nor the
deallocation pattern, produces no event and no error and leaves the scan
state unchanged; but a line bearing the trace marker (while attribution
is active) that ends with neither `enter` nor `return` raises an
assertion failure and aborts the scan. -/
theorem C3_unrecognized (s : ScanState) (n : Nat) (l : List Char) :
    (traceMarker.isPrefixOf (normLine l) = false →
      debugMarker.isPrefixOf (normLine l) = false →
      processLine s n l = Except.ok s)
    ∧ (debugMarker.isPrefixOf (normLine l) = true →
      searchMalloc (normLine l) = none → searchFree (normLine l) = none →
      processLine s n l = Except.ok s)
    ∧ (s.use_trace = true → traceMarker.isPrefixOf (normLine l) = true →
      ("enter").toList.isSuffixOf ((normLine l).drop 12) = false →
      ("return").toList.isSuffixOf ((normLine l).drop 12) = false →
      processLine s n l = Except.error PyError.assertionError) := by
  refine ⟨?_, ?_, ?_⟩
  · intro h1 h2
    rw [processLine, classify_of_noise s.use_trace h1 h2]
    rfl
  · intro h1 h2 h3
    rw [processLine, classify_of_debug s.use_trace h1]
    simp only [h2, h3]
    rfl
  · intro hu h1 h2 h3
    rw [processLine, hu, classify_of_trace h1]
    simp only [h2, h3, Bool.false_eq_true, if_false, reduceIte]
    rfl

/-- C3 witness: a plain noise line is processed without any event or
error, leaving the initial state unchanged. -/
theorem C3_witness :
    processLine initState 1 (("random noise").toList) = Except.ok initState :=
  (C3_unrecognized initState 1 (("random noise").toList)).1
    (by decide) (by decide)

/-- C4: an allocation event at an address already present in the
outstanding table makes the whole scan fail with the duplicate-allocation
assertion (`assert(memaddr not in mallocs)`), an outcome distinct from
`leaksFound`; in particular the existing record is never silently
overwritten by a successful scan. -/
theorem C4_duplicate_alloc (pre : List (List Char)) (l : List Char)
    (post : List (List Char)) (s : ScanState) (ds ws : List Char) (a : Nat)
    (hrun : runFrom initState 1 pre = Except.ok s)
    (hc : classify s.use_trace (normLine l) = LineEvent.mallocEv ds ws)
    (hv : hexVal ws = some a)
    (hk : hasKey a s.mallocs = true) :
    scan (pre ++ l :: post) = ScanResult.err PyError.assertionError ∧
    ∀ r, scan (pre ++ l :: post) ≠ ScanResult.leaksFound r := by
  have hstep : processLine s (1 + pre.length) l =
      Except.error PyError.assertionError := by
    rw [processLine, hc]
    simp only [applyEvent, hv, hk, if_true, reduceIte]
  have hfull : runFrom initState 1 (pre ++ l :: post) =
      Except.error PyError.assertionError := by
    have h2 : runFrom initState 1 (pre ++ l :: post) =
        runFrom s (1 + pre.length) (l :: post) := by
      rw [runFrom_append, hrun]
    rw [h2]
    simp only [runFrom, hstep]
  refine ⟨?_, ?_⟩
  · rw [scan, hfull]
  · intro r
    rw [scan, hfull]
    simp

/-- C4 witness: Scenario D — two allocation lines for `0xCCCC` with no
intervening free; the second aborts the scan with the duplicate
assertion. -/
theorem C4_witness :
    scan [mallocC1, mallocC1] = ScanResult.err PyError.assertionError :=
  (C4_duplicate_alloc [mallocC1] mallocC1 []
    ⟨[], [(52428, (1, none, 8))], 1, 8, 8, 8, false⟩
    (("8").toList) (("CCCC").toList) 52428
    rfl (by decide) (by decide) (by decide)).1

/-- C5: a deallocation event at an address not present in the outstanding
table makes the whole scan fail with `KeyError` from `mallocs.pop`, an
outcome distinct from `leaksFound`. -/
theorem C5_unknown_free (pre : List (List Char)) (l : List Char)
    (post : List (List Char)) (s : ScanState) (ws : List Char) (a : Nat)
    (hrun : runFrom initState 1 pre = Except.ok s)
    (hc : classify s.use_trace (normLine l) = LineEvent.freeEv ws)
    (hv : hexVal ws = some a)
    (hk : hasKey a s.mallocs = false) :
    scan (pre ++ l :: post) = ScanResult.err PyError.keyError ∧
    ∀ r, scan (pre ++ l :: post) ≠ ScanResult.leaksFound r := by
  have hstep : processLine s (1 + pre.length) l =
      Except.error PyError.keyError := by
    rw [processLine, hc]
    simp only [applyEvent, hv, dictPop_none_of_hasKey_false hk]
  have hfull : runFrom initState 1 (pre ++ l :: post) =
      Except.error PyError.keyError := by
    have h2 : runFrom initState 1 (pre ++ l :: post) =
        runFrom s (1 + pre.length) (l :: post) := by
      rw [runFrom_append, hrun]
    rw [h2]
    simp only [runFrom, hstep]
  refine ⟨?_, ?_⟩
  · rw [scan, hfull]
  · intro r
    rw [scan, hfull]
    simp

/-- C5 witness: Scenario C — a free line for `0xBBBB` with no prior
allocation aborts the scan with `KeyError`. -/
theorem C5_witness :
    scan [freeUnknownLine] = ScanResult.err PyError.keyError :=
  (C5_unknown_free [] freeUnknownLine [] initState
    (("BBBB").toList) 48059 rfl (by decide) (by decide) (by decide)).1

/-- C6: for a well-formed trace — one the scan completes without a scan
error — in which every allocation event is followed by a textually later
deallocation event at the same address, the outstanding table is empty at
end of input, the scan reports zero leaks and returns the
`ScanResult.ok` outcome (process exit status zero). -/
theorem C6_matched_trace_no_leaks (lines : List (List Char)) (s' : ScanState)
    (hrun : runFrom initState 1 lines = Except.ok s')
    (hmatch : ∀ pre l post a, lines = pre ++ l :: post →
      mallocAddr l = some a → ∃ l2 ∈ post, freeAddr l2 = some a) :
    s'.mallocs = [] ∧
    scan lines = ScanResult.ok (mkReport s') ∧ (mkReport s').leaks = [] := by
  have hempty : s'.mallocs = [] :=
    run_mallocs_empty lines initState 1 s' hrun (by simp [initState])
      (by intro a ha; simp [initState, hasKey] at ha) hmatch
  refine ⟨hempty, ?_, ?_⟩
  · unfold scan
    rw [hrun]
    simp [hempty]
  · simp [mkReport, hempty]

/-- C6 witness: a two-line trace allocating `0xAAAA` and then freeing it
scans to the ok outcome with an empty leak report. -/
theorem C6_witness :
    scan [mallocSizeLine, freeFooLine] =
      ScanResult.ok
        { leaks := [], totalmallocs := 1, totalbytes := 16,
          maxconcurrentbytes := 16 } := by
  have h := C6_matched_trace_no_leaks [mallocSizeLine, freeFooLine]
    ⟨[], [], 1, 16, 0, 16, false⟩ rfl ?_
  · exact h.2.1
  · intro pre l post a hdec hma
    rcases pre with _ | ⟨p1, pre⟩
    · rw [List.nil_append] at hdec
      injection hdec with h1 h2
      subst h1
      subst h2
      have hx : mallocAddr mallocSizeLine = some 43690 := by decide
      rw [hx] at hma
      injection hma with h3
      subst h3
      exact ⟨freeFooLine, List.mem_singleton.mpr rfl, by decide⟩
    · rcases pre with _ | ⟨p2, pre⟩
      · simp only [List.cons_append, List.nil_append] at hdec
        injection hdec with h1 h2
        injection h2 with h2 h3
        subst h2
        have hx : mallocAddr freeFooLine = none := by decide
        rw [hx] at hma
        exact absurd hma (by simp)
      · simp only [List.cons_append] at hdec
        injection hdec with h1 h2
        injection h2 with h2 h3
        simp at h3

/-- C7: Scenario A — the three-line trace yields exactly one leak, at
line 2, of 16 bytes, attributed to function `foo`; Scenario B — the same
trace followed by the matching free yields a report of zero leaks. -/
theorem C7_scenarios :
    scan [enterFooLine, mallocSizeLine, returnFooLine] =
      ScanResult.leaksFound
        { leaks := [(2, some (("foo").toList), 16)]
          totalmallocs := 1, totalbytes := 16, maxconcurrentbytes := 16 }
    ∧ scan [enterFooLine, mallocSizeLine, returnFooLine, freeFooLine] =
      ScanResult.ok
        { leaks := [], totalmallocs := 1, totalbytes := 16,
          maxconcurrentbytes := 16 } := by
  exact ⟨by decide, by decide⟩

/-- C8: whenever the scan ends with leaks, the reported list is the
outstanding records sorted by strictly ascending line number (line
numbers of distinct records are always distinct, so the tie-breaking
clause is vacuous), and it is a permutation of the final outstanding
table's records. -/
theorem C8_report_sorted (lines : List (List Char)) (r : Report)
    (h : scan lines = ScanResult.leaksFound r) :
    List.Pairwise (fun x y : AllocRecord => x.1 < y.1) r.leaks ∧
    ∃ s', runFrom initState 1 lines = Except.ok s' ∧
      r.leaks.Perm (s'.mallocs.map Prod.snd) := by
  unfold scan at h
  cases hrun : runFrom initState 1 lines with
  | error e => rw [hrun] at h; simp at h
  | ok s' =>
    rw [hrun] at h
    cases hemp : s'.mallocs.isEmpty with
    | true => simp [hemp] at h
    | false =>
      simp only [hemp, Bool.false_eq_true, if_false, reduceIte,
        ScanResult.leaksFound.injEq] at h
      subst h
      haveI hTot : IsTotal AllocRecord (fun x y => pyLe x y = true) :=
        ⟨fun a b => Bool.or_eq_true_iff.mp (pyLe_total a b)⟩
      haveI hTrans : IsTrans AllocRecord (fun x y => pyLe x y = true) :=
        ⟨fun a b c => pyLe_trans a b c⟩
      have hperm := List.perm_insertionSort (fun x y => pyLe x y = true)
        (s'.mallocs.map Prod.snd)
      have hsorted := List.sorted_insertionSort (fun x y => pyLe x y = true)
        (s'.mallocs.map Prod.snd)
      have hlin : List.Pairwise (· < ·) (s'.mallocs.map (fun p => p.2.1)) :=
        run_linenum_inv lines initState 1 s' hrun (by simp [initState])
          (by simp [initState])
      have hlin2 : List.Pairwise (fun x y : AllocRecord => x.1 < y.1)
          (s'.mallocs.map Prod.snd) := by
        rw [List.pairwise_map]
        rw [List.pairwise_map] at hlin
        exact hlin
      have hne : List.Pairwise (fun x y : AllocRecord => x.1 ≠ y.1)
          (List.insertionSort (fun x y => pyLe x y = true)
            (s'.mallocs.map Prod.snd)) := by
        refine (List.Perm.pairwise_iff ?_ hperm).mpr
          (hlin2.imp fun hab => Nat.ne_of_lt hab)
        intro x y hxy
        exact hxy.symm
      refine ⟨?_, s', rfl, ?_⟩
      · simp only [mkReport]
        refine (hsorted.and hne).imp ?_
        intro a b hab
        rcases hab with ⟨h1, h2⟩
        simp only [pyLe, Bool.or_eq_true, Bool.and_eq_true,
          decide_eq_true_eq] at h1
        rcases h1 with h1 | ⟨h1, _⟩
        · exact h1
        · exact absurd h1 h2
      · simp only [mkReport]
        exact hperm

/-- C8 witness: a trace leaking two allocations produces a report whose
entries carry strictly increasing line numbers. -/
theorem C8_witness :
    List.Pairwise (fun x y : AllocRecord => x.1 < y.1)
      ({ leaks := [(1, none, 8), (2, none, 4)], totalmallocs := 2,
         totalbytes := 12, maxconcurrentbytes := 12 } : Report).leaks :=
  (C8_report_sorted [mallocLeak1, mallocLeak2] _ (by decide)).1

/-- C9: at every step of a scan (every state reached after some prefix of
the input) the high-water mark is at least the instantaneous
concurrently-allocated byte count, and when the scan completes, the final
high-water mark bounds every instantaneous value of the run and is
attained at some prefix — it equals the maximum over the whole run. -/
theorem C9_highwater (lines : List (List Char)) :
    (∀ k s, runFrom initState 1 (lines.take k) = Except.ok s →
        s.concurrentbytes ≤ s.maxconcurrentbytes)
    ∧ ∀ s', runFrom initState 1 lines = Except.ok s' →
        (∀ k s, runFrom initState 1 (lines.take k) = Except.ok s →
            s.concurrentbytes ≤ s'.maxconcurrentbytes)
        ∧ ∃ k s, runFrom initState 1 (lines.take k) = Except.ok s ∧
            s.concurrentbytes = s'.maxconcurrentbytes := by
  constructor
  · intro k s hk
    exact run_conc_inv _ initState 1 s hk (by simp [initState])
  · intro s' hrun
    constructor
    · intro k s hk
      have h1 : s.concurrentbytes ≤ s.maxconcurrentbytes :=
        run_conc_inv _ initState 1 s hk (by simp [initState])
      have h2 : runFrom s (1 + (lines.take k).length) (lines.drop k) =
          Except.ok s' := by
        have h3 := runFrom_append (lines.take k) (lines.drop k) initState 1
        rw [List.take_append_drop, hrun, hk] at h3
        exact h3.symm
      exact le_trans h1 (run_max_mono _ s _ s' h2)
    · rcases run_max_attained lines initState 1 s' hrun with heq | ⟨k, t, hk, hc⟩
      · exact ⟨0, initState, rfl, by rw [heq]; rfl⟩
      · exact ⟨k, t, hk, hc⟩

/-- C9 witness: the theorem applied to a one-allocation trace — the final
high-water mark (8 bytes) is attained at some prefix of the run. -/
theorem C9_witness :
    ∃ k s, runFrom initState 1 ([mallocLeak1].take k) = Except.ok s ∧
      s.concurrentbytes =
        (⟨[], [(177, (1, none, 8))], 1, 8, 8, 8, false⟩ :
          ScanState).maxconcurrentbytes :=
  ((C9_highwater [mallocLeak1]).2
    ⟨[], [(177, (1, none, 8))], 1, 8, 8, 8, false⟩ rfl).2

/-- C10: once the scan is in un-attributed mode (`use_trace = false`),
a trace-lifecycle line — whatever its suffix — produces no event and no
error and leaves the state (in particular the call stack) unchanged, and
any successfully processed line keeps `use_trace` off, so the mode
persists for the remainder of the scan and no further stack underflow can
occur. -/
theorem C10_unattributed_mode (s : ScanState) (n : Nat) (l : List Char)
    (hu : s.use_trace = false) :
    (traceMarker.isPrefixOf (normLine l) = true →
      processLine s n l = Except.ok s)
    ∧ ∀ s₁, processLine s n l = Except.ok s₁ → s₁.use_trace = false := by
  constructor
  · intro htr
    obtain ⟨t, ht⟩ := isPrefixOf_ex htr
    have hd : debugMarker.isPrefixOf (normLine l) = false := by
      rw [ht]
      exact debugMarker_of_trace t
    rw [processLine, hu, classify_of_ut_false hd]
    rfl
  · intro s₁ h
    exact step_use_trace h hu

/-- C10 witness: in un-attributed mode even a return line (which would
underflow the empty stack in attributed mode) is ignored outright. -/
theorem C10_witness :
    processLine (⟨[], [], 0, 0, 0, 0, false⟩ : ScanState) 1 returnFooLine =
      Except.ok (⟨[], [], 0, 0, 0, 0, false⟩ : ScanState) :=
  (C10_unattributed_mode ⟨[], [], 0, 0, 0, 0, false⟩ 1 returnFooLine rfl).1
    (by decide)
